import Mathlib

/-!
Verification of the diet-optimization engine in `src/optimize.py` and its API
dispatch in `src/api/services.py`, as a shallow embedding over exact rationals.

Conventions of the embedding:
* pandas `DataFrame` of foods  ↦  `FoodTable` (shared column list + rows);
  a missing cell (`NaN`) is `none` in the row's sparse cell list.
* python `dict`  ↦  association list `Dict` with python-dict update semantics
  (`setv` replaces in place, appends when absent).
* `scipy.optimize.linprog`  ↦  an abstract `Solver : LPProblem → Option (List ℚ)`
  parameter (the code treats the solver as an opaque capability).
* python float arithmetic  ↦  exact `ℚ`; `round(x, 1)`  ↦  `round1`
  (round half to even, as python rounds).
-/

/-- A python dict from food/nutrient name to a rational value. -/
abbrev Dict := List (String × ℚ)

/-- Dict lookup (`d.get(k)` / `d[k]`): first matching key. -/
def dget : Dict → String → Option ℚ
  | [], _ => none
  | (k, v) :: rest, key => if key = k then some v else dget rest key

/-- Dict lookup with default (`d.get(k, dflt)`). -/
def dgetD (d : Dict) (k : String) (dflt : ℚ) : ℚ :=
  (dget d k).getD dflt

/-- The keys of a dict. -/
def dkeys (d : Dict) : List String :=
  d.map Prod.fst

/-- Python dict assignment `d[k] = v`: replace the (unique) existing binding
in place, append when absent. -/
def setv : Dict → String → ℚ → Dict
  | [], k, v => [(k, v)]
  | (k', v') :: rest, k, v =>
      if k' = k then (k', v) :: rest else (k', v') :: setv rest k v

/-- Python `d.update(upd)`: assign every binding of `upd` into `d`, in order. -/
def updateAll : Dict → Dict → Dict
  | d, [] => d
  | d, kv :: rest => updateAll (setv d kv.1 kv.2) rest

/-- One row of the merged food table: `food_name`, `price_per_100g`, and the
sparse per-100g nutrient cells (a cell absent from the list is `NaN`). -/
structure FoodRow where
  name : String
  price_per_100g : ℚ
  cells : Dict
deriving DecidableEq

/-- The food `DataFrame`: the nutrient columns it carries plus its rows. -/
structure FoodTable where
  cols : List String
  rows : List FoodRow
deriving DecidableEq

/-- `get_food_row` (optimize.py:220): first row whose `food_name` matches. -/
def get_food_row (t : FoodTable) (n : String) : Option FoodRow :=
  t.rows.find? (fun r => r.name == n)

/-- Reading `food_row[nutrient]` guarded by `nutrient in food_row` and
`pd.notna`: 0 when the column is absent or the cell is `NaN`. -/
def cellVal (t : FoodTable) (r : FoodRow) (n : String) : ℚ :=
  if n ∈ t.cols then (dget r.cells n).getD 0 else 0

/-- `row.get(key, 0)` on a pandas row: the default 0 when the column does not
exist, otherwise the cell itself (which may be `NaN`, i.e. `none`). -/
def seriesGet (cols : List String) (r : FoodRow) (k : String) : Option ℚ :=
  if k ∈ cols then dget r.cells k else some 0

/-- A linear program as `linprog` receives it: objective vector `c`, the
inequality rows `constrs` (coefficients paired with the right-hand side of
`coeffs · x ≤ rhs`), and per-variable box bounds (`none` = unbounded above). -/
structure LPProblem where
  c : List ℚ
  constrs : List (List ℚ × ℚ)
  bounds : List (ℚ × Option ℚ)
deriving DecidableEq

/-- The external LP solver capability: `none` = infeasible / failure,
`some xs` = success with optimal variable vector `xs`. -/
abbrev Solver := LPProblem → Option (List ℚ)

/-- Floor of a rational, computed by floor division of numerator by
denominator. -/
def ratFloor (q : ℚ) : ℤ :=
  Int.fdiv q.num q.den

/-- Round a rational to the nearest integer, ties to even
(python's rounding). -/
def pyRoundHalfEven (q : ℚ) : ℤ :=
  let f : ℤ := ratFloor q
  let r : ℚ := q - (f : ℚ)
  if r < 1/2 then f
  else if (1/2 : ℚ) < r then f + 1
  else if f % 2 = 0 then f else f + 1

/-- Python `round(x, 1)`. -/
def round1 (q : ℚ) : ℚ :=
  (pyRoundHalfEven (q * 10) : ℚ) / 10

/-- `_extract_amounts` (optimize.py:228): keep only entries with at least 1 g,
rounded to one decimal. -/
def extractAmounts (xs : List ℚ) (names : List String) : Dict :=
  (xs.zip names).foldl
    (fun acc p => if 1 ≤ p.1 then setv acc p.2 (round1 p.1) else acc) []

/-- The post-solve minimum-amount enforcement shared by the LP strategies
(optimize.py:331,545,644,778): every minimum pin of at least 1 g naming a
variable food is forced up to (the rounded) pinned minimum. -/
def enforceMins (names : List String) : Dict → Dict → Dict
  | amounts, [] => amounts
  | amounts, kv :: rest =>
      enforceMins names
        (if kv.1 ∈ names ∧ 1 ≤ kv.2 then
          match dget amounts kv.1 with
          | none => setv amounts kv.1 (round1 kv.2)
          | some v => if v < kv.2 then setv amounts kv.1 (round1 kv.2) else amounts
        else amounts) rest

/-- The aggregate nutrient contribution of the fixed pins
(optimize.py:252-264 and its clones): only nutrients appearing in
`requirements` are accumulated; pins naming unknown foods are skipped. -/
def fixedNutrition (t : FoodTable) (req fixed : Dict) (n : String) : ℚ :=
  if (dget req n).isSome then
    (fixed.map (fun kv =>
      match get_food_row t kv.1 with
      | none => 0
      | some r => cellVal t r n * (kv.2 / 100))).sum
  else 0

/-- The aggregate cost of the fixed pins (optimize.py:259 and clones). -/
def fixedCost (t : FoodTable) (fixed : Dict) : ℚ :=
  (fixed.map (fun kv =>
    match get_food_row t kv.1 with
    | none => 0
    | some r => r.price_per_100g * (kv.2 / 100))).sum

/-- `foods[~foods['food_name'].isin(fixed_foods.keys())]`: the variable
(non-fixed) rows. -/
def variableRows (t : FoodTable) (fixed : Dict) : List FoodRow :=
  t.rows.filter (fun r => (dget fixed r.name).isNone)

/-- Total grams pinned by the fixed foods (`sum(fixed_foods.values())`). -/
def fixedTotal (fixed : Dict) : ℚ :=
  (fixed.map Prod.snd).sum

/-- The "at-least" requirement rows (optimize.py:284-295): one row per
requirement nutrient that exists as a column and whose remaining target
(after fixed pins) is still positive; coefficients are negated per-gram
values, right-hand side the negated remaining target. -/
def reqConstrs (cols : List String) (varR : List FoodRow) (req : Dict)
    (fixedN : String → ℚ) : List (List ℚ × ℚ) :=
  req.filterMap (fun kv =>
    if kv.1 ∈ cols then
      let rem := kv.2 - fixedN kv.1
      if rem ≤ 0 then none
      else some (varR.map (fun r => -((dget r.cells kv.1).getD 0) / 100), -rem)
    else none)

/-- The "at-most" upper-limit rows (optimize.py:298-309 and clones): one row
per upper-limit nutrient that exists as a column and whose remaining limit
(after fixed pins) is still positive; a non-positive remaining limit is
silently dropped by the code. -/
def upperConstrs (cols : List String) (varR : List FoodRow) (upper : Dict)
    (fixedN : String → ℚ) : List (List ℚ × ℚ) :=
  upper.filterMap (fun kv =>
    if kv.1 ∈ cols then
      let rem := kv.2 - fixedN kv.1
      if rem ≤ 0 then none
      else some (varR.map (fun r => ((dget r.cells kv.1).getD 0) / 100), rem)
    else none)

/-- Per-variable box bounds (optimize.py:317-321 and clones):
`(min_foods.get(food, 0), None)`. -/
def lpBounds (varR : List FoodRow) (mins : Dict) : List (ℚ × Option ℚ) :=
  varR.map (fun r => (dgetD mins r.name 0, (none : Option ℚ)))

/-- `{k: v * s for k, v in d.items()}`. -/
def scaleDict (s : ℚ) (d : Dict) : Dict :=
  d.map (fun kv => (kv.1, kv.2 * s))

/-- The LP instance `_optimize_strict` assembles (optimize.py:276-321):
cost objective, requirement rows, upper-limit rows, the total-weight row,
and the per-food bounds. -/
def strictLP (t : FoodTable) (req upper : Dict) (W : ℚ) (fixed mins : Dict) :
    LPProblem :=
  let fixedN := fixedNutrition t req fixed
  let varR := variableRows t fixed
  { c := varR.map (fun r => r.price_per_100g / 100)
    constrs := reqConstrs t.cols varR req fixedN
      ++ upperConstrs t.cols varR upper fixedN
      ++ [(List.replicate varR.length 1, W - fixedTotal fixed)]
    bounds := lpBounds varR mins }

/-- `_optimize_strict` (optimize.py:237-338). -/
def optimize_strict (solver : Solver) (t : FoodTable) (req upper : Dict)
    (W : ℚ) (fixed mins : Dict) : Option Dict :=
  let varR := variableRows t fixed
  if varR.isEmpty then (if fixed.isEmpty then none else some fixed)
  else
    let names := varR.map FoodRow.name
    let lp := strictLP t req upper W fixed mins
    if lp.constrs.isEmpty then none
    else
      match solver lp with
      | none => none
      | some xs =>
          some (updateAll (enforceMins names (extractAmounts xs names) mins) fixed)

/-- The LP instance `optimize_calorie_focused` assembles
(optimize.py:588-634): cost objective; an energy floor and a protein floor
(each only when the nutrient is requested, is a column, and its remaining
target is positive); upper-limit rows; the total-weight row. -/
def calorieFocusedLP (t : FoodTable) (req upper : Dict) (W : ℚ)
    (fixed mins : Dict) : LPProblem :=
  let fixedN := fixedNutrition t req fixed
  let varR := variableRows t fixed
  let energyRows : List (List ℚ × ℚ) :=
    match dget req "energy_kcal" with
    | some e =>
        if "energy_kcal" ∈ t.cols then
          let rem := e - fixedN "energy_kcal"
          if 0 < rem then
            [(varR.map (fun r => -((dget r.cells "energy_kcal").getD 0) / 100), -rem)]
          else []
        else []
    | none => []
  let proteinRows : List (List ℚ × ℚ) :=
    match dget req "protein_g" with
    | some p =>
        if "protein_g" ∈ t.cols then
          let rem := p - fixedN "protein_g"
          if 0 < rem then
            [(varR.map (fun r => -((dget r.cells "protein_g").getD 0) / 100), -rem)]
          else []
        else []
    | none => []
  { c := varR.map (fun r => r.price_per_100g / 100)
    constrs := energyRows ++ proteinRows
      ++ upperConstrs t.cols varR upper fixedN
      ++ [(List.replicate varR.length 1, W - fixedTotal fixed)]
    bounds := lpBounds varR mins }

/-- `optimize_calorie_focused` (optimize.py:556-650): returns `none` on
solver failure, with no fallback. -/
def optimize_calorie_focused (solver : Solver) (t : FoodTable)
    (req upper : Dict) (W : ℚ) (fixed mins : Dict) : Option Dict :=
  let varR := variableRows t fixed
  if varR.isEmpty then (if fixed.isEmpty then none else some fixed)
  else
    let names := varR.map FoodRow.name
    let lp := calorieFocusedLP t req upper W fixed mins
    if lp.constrs.isEmpty then none
    else
      match solver lp with
      | none => none
      | some xs =>
          some (updateAll (enforceMins names (extractAmounts xs names) mins) fixed)

/-- Scoring parameters of the custom-score strategy (api/models.py:17-24). -/
structure ScoringParams where
  deficit_penalty : ℚ
  cost_bonus : ℚ
  calorie_weight : ℚ
  protein_weight : ℚ
  vitamin_weight : ℚ
  mineral_weight : ℚ
deriving DecidableEq

/-- The vitamin nutrient tags (optimize.py:704-706). -/
def vitamin_nutrients : List String :=
  ["vitamin_a_ug", "vitamin_b1_mg", "vitamin_b2_mg", "vitamin_b6_mg",
   "vitamin_b12_ug", "vitamin_c_mg", "vitamin_d_ug", "vitamin_e_mg",
   "vitamin_k_ug", "niacin_mg", "folate_ug", "pantothenic_mg"]

/-- The mineral nutrient tags (optimize.py:707-708). -/
def mineral_nutrients : List String :=
  ["calcium_mg", "iron_mg", "magnesium_mg", "zinc_mg",
   "potassium_mg", "phosphorus_mg", "copper_mg"]

/-- Per-nutrient category weight of the custom-score objective
(optimize.py:710-720). -/
def nutrientWeight (p : ScoringParams) (n : String) : ℚ :=
  if n = "energy_kcal" then p.calorie_weight
  else if n = "protein_g" then p.protein_weight
  else if n ∈ vitamin_nutrients then p.vitamin_weight
  else if n ∈ mineral_nutrients then p.mineral_weight
  else 1

/-- Componentwise vector addition (`numpy` `+=` on aligned vectors). -/
def addVec (a b : List ℚ) : List ℚ :=
  List.zipWith (· + ·) a b

/-- The custom-score nutrient contribution vector (optimize.py:728-739). -/
def scoreContrib (cols : List String) (varR : List FoodRow) (req : Dict)
    (fixedN : String → ℚ) (p : ScoringParams) : List ℚ :=
  req.foldl (fun acc kv =>
    if kv.1 ∈ cols ∧ 0 < kv.2 then
      let rem := kv.2 - fixedN kv.1
      if 0 < rem then
        addVec acc (varR.map (fun r =>
          ((dget r.cells kv.1).getD 0) / 100 / rem * nutrientWeight p kv.1
            * p.deficit_penalty))
      else acc
    else acc) (List.replicate varR.length 0)

/-- The LP instance `optimize_with_score` assembles (optimize.py:697-771):
negated score-minus-cost objective; upper-limit rows; total-weight row. -/
def withScoreLP (t : FoodTable) (req upper : Dict) (W : ℚ) (fixed : Dict)
    (p : ScoringParams) (mins : Dict) : LPProblem :=
  let fixedN := fixedNutrition t req fixed
  let varR := variableRows t fixed
  let scores := scoreContrib t.cols varR req fixedN p
  { c := List.zipWith (fun s r => -(s - r.price_per_100g / 100 * p.cost_bonus))
      scores varR
    constrs := upperConstrs t.cols varR upper fixedN
      ++ [(List.replicate varR.length 1, W - fixedTotal fixed)]
    bounds := lpBounds varR mins }

/-- `optimize_with_score` (optimize.py:653-784). -/
def optimize_with_score (solver : Solver) (t : FoodTable) (req upper : Dict)
    (W : ℚ) (fixed : Dict) (p : ScoringParams) (mins : Dict) : Option Dict :=
  let varR := variableRows t fixed
  if varR.isEmpty then (if fixed.isEmpty then none else some fixed)
  else
    let names := varR.map FoodRow.name
    let lp := withScoreLP t req upper W fixed p mins
    match solver lp with
    | none => none
    | some xs =>
        some (updateAll (enforceMins names (extractAmounts xs names) mins) fixed)

/-- `calc_score` inside `optimize_best_effort` (optimize.py:389-399): 0 when
the price is non-positive, otherwise the energy/protein/calcium/iron
cost-performance sum; a `NaN` cell propagates (`none`). -/
def calc_score (cols : List String) (r : FoodRow) : Option ℚ :=
  if r.price_per_100g ≤ 0 then some 0
  else
    match seriesGet cols r "energy_kcal", seriesGet cols r "protein_g",
        seriesGet cols r "calcium_mg", seriesGet cols r "iron_mg" with
    | some e, some p, some c, some i =>
        some (e / r.price_per_100g * (1/2) + p / r.price_per_100g * 10
          + c / r.price_per_100g * (1/10) + i / r.price_per_100g * 5)
    | _, _, _, _ => none

/-- Descending comparison on optional scores; `none` (`NaN`) sorts last, as
pandas places it. -/
def scoreGE (a b : Option ℚ) : Bool :=
  match a, b with
  | some x, some y => decide (y ≤ x)
  | some _, none => true
  | none, some _ => false
  | none, none => true

/-- Insert a row into a score-descending list, keeping it sorted. -/
def insertDesc (cols : List String) (r : FoodRow) :
    List FoodRow → List FoodRow
  | [] => [r]
  | h :: tl =>
      if scoreGE (calc_score cols r) (calc_score cols h) then r :: h :: tl
      else h :: insertDesc cols r tl

/-- `variable_foods.sort_values('score', ascending=False)`
(optimize.py:401-402). -/
def sortByScoreDesc (cols : List String) : List FoodRow → List FoodRow
  | [] => []
  | h :: tl => insertDesc cols h (sortByScoreDesc cols tl)

/-- The running state of the best-effort heuristic: the amounts chosen so
far, the remaining weight, and the remaining budget (`none` = unlimited). -/
structure BEState where
  amounts : Dict
  rw : ℚ
  rb : Option ℚ
deriving DecidableEq

/-- Subtract a spent amount from the remaining budget (`inf` stays `inf`). -/
def budgetSub (rb : Option ℚ) (x : ℚ) : Option ℚ :=
  rb.map (· - x)

/-- `remaining_budget < 1` (false for an unlimited budget). -/
def budgetLt1 (rb : Option ℚ) : Bool :=
  match rb with
  | none => false
  | some b => decide (b < 1)

/-- The minimum-pin pass of `optimize_best_effort` (optimize.py:409-423):
each minimum pin that is not fixed and names a known food is granted
`min(min_amount, remaining_weight)` grams when that is positive. -/
def beMinFold (t : FoodTable) (fixed : Dict) : BEState → Dict → BEState
  | st, [] => st
  | st, kv :: rest =>
      if (dget fixed kv.1).isSome then beMinFold t fixed st rest
      else
        match get_food_row t kv.1 with
        | none => beMinFold t fixed st rest
        | some row =>
            let ppg := row.price_per_100g / 100
            let amount := min kv.2 st.rw
            if 0 < amount then
              beMinFold t fixed
                { amounts := setv st.amounts kv.1 (round1 amount)
                  rw := st.rw - amount
                  rb := budgetSub st.rb (amount * ppg) } rest
            else beMinFold t fixed st rest

/-- `min(100, max_by_weight, max_by_budget)` for one greedy step
(optimize.py:431-436). -/
def beAmount (st : BEState) (row : FoodRow) : ℚ :=
  let ppg := row.price_per_100g / 100
  let maxByBudget : Option ℚ :=
    if 0 < ppg then st.rb.map (· / ppg) else some st.rw
  match maxByBudget with
  | none => min 100 st.rw
  | some b => min (min 100 st.rw) b

/-- The greedy pass of `optimize_best_effort` (optimize.py:425-447): take up
to 100 g of each not-yet-chosen food in descending score order, skip
increments below 10 g, stop once weight or budget is exhausted. -/
def beGreedyFold : BEState → List FoodRow → BEState
  | st, [] => st
  | st, row :: rest =>
      if (dget st.amounts row.name).isSome then beGreedyFold st rest
      else
        let ppg := row.price_per_100g / 100
        let amount := beAmount st row
        if amount < 10 then beGreedyFold st rest
        else
          let st' : BEState :=
            { amounts := setv st.amounts row.name (round1 amount)
              rw := st.rw - amount
              rb := budgetSub st.rb (amount * ppg) }
          if st'.rw < 10 ∨ budgetLt1 st'.rb then st'
          else beGreedyFold st' rest

/-- `optimize_best_effort` (optimize.py:341-449): never fails; applies fixed
pins, then minimum pins, then the greedy pass. The `requirements` argument
only feeds the (unused downstream) fixed-nutrition bookkeeping, so it does
not appear here. -/
def optimize_best_effort (t : FoodTable) (_req : Dict) (W : ℚ)
    (fixed mins : Dict) (budget : Option ℚ) : Dict :=
  let varR := variableRows t fixed
  if varR.isEmpty then (if fixed.isEmpty then [] else fixed)
  else
    let st0 : BEState :=
      { amounts := fixed
        rw := W - fixedTotal fixed
        rb := budget.map (fun b => b - fixedCost t fixed) }
    let st1 := beMinFold t fixed st0 mins
    (beGreedyFold st1 (sortByScoreDesc t.cols varR)).amounts

/-- The achievement-score objective vector of `optimize_cost_limited`
(optimize.py:492-505): energy weighted 2, protein 3, all else 1. -/
def costLimitedContrib (cols : List String) (varR : List FoodRow)
    (req : Dict) (fixedN : String → ℚ) : List ℚ :=
  req.foldl (fun acc kv =>
    if kv.1 ∈ cols ∧ 0 < kv.2 then
      let rem := kv.2 - fixedN kv.1
      if 0 < rem then
        addVec acc (varR.map (fun r =>
          ((dget r.cells kv.1).getD 0) / 100 / rem
            * (if kv.1 = "energy_kcal" then 2
               else if kv.1 = "protein_g" then 3 else 1)))
      else acc
    else acc) (List.replicate varR.length 0)

/-- The LP instance `optimize_cost_limited` assembles (optimize.py:487-538):
negated achievement objective; a budget row; the total-weight row; upper
limits relaxed by 1.5. -/
def costLimitedLP (t : FoodTable) (req upper : Dict) (W : ℚ) (fixed : Dict)
    (maxCost : ℚ) (mins : Dict) : LPProblem :=
  let fixedN := fixedNutrition t req fixed
  let varR := variableRows t fixed
  { c := (costLimitedContrib t.cols varR req fixedN).map Neg.neg
    constrs := [(varR.map (fun r => r.price_per_100g / 100),
        maxCost - fixedCost t fixed),
      (List.replicate varR.length 1, W - fixedTotal fixed)]
      ++ upperConstrs t.cols varR (scaleDict (3/2) upper) fixedN
    bounds := lpBounds varR mins }

/-- `optimize_cost_limited` (optimize.py:452-553): on solver failure it falls
back to the best-effort heuristic with the budget as its spending cap. -/
def optimize_cost_limited (solver : Solver) (t : FoodTable)
    (req upper : Dict) (W : ℚ) (fixed : Dict) (maxCost : ℚ) (mins : Dict) :
    Dict :=
  let varR := variableRows t fixed
  if varR.isEmpty then (if fixed.isEmpty then [] else fixed)
  else
    let names := varR.map FoodRow.name
    let lp := costLimitedLP t req upper W fixed maxCost mins
    match solver lp with
    | none => optimize_best_effort t req W fixed mins (some maxCost)
    | some xs =>
        updateAll (enforceMins names (extractAmounts xs names) mins) fixed

/-- The six essential nutrients of the balanced cascade (optimize.py:825). -/
def essential_nutrients : List String :=
  ["energy_kcal", "protein_g", "calcium_mg", "iron_mg", "vitamin_a_ug",
   "vitamin_c_mg"]

/-- Python truthiness of an optional dict (`if result:`): `none` and the
empty dict are falsy. -/
def truthy : Option Dict → Bool
  | none => false
  | some d => !d.isEmpty

/-- `optimize_diet` (optimize.py:787-837), the balanced cascade: strict, then
upper limits ×1.5, then requirements ×0.95/0.90/0.85/0.80 with the ×1.5
upper limits, then the six essential nutrients with no upper limits, then
calorie-focused with no upper limits, then best effort. -/
def optimize_diet (solver : Solver) (t : FoodTable) (req upper : Dict)
    (W : ℚ) (fixed mins : Dict) : Option Dict :=
  let r1 := optimize_strict solver t req upper W fixed mins
  if truthy r1 then r1 else
  let up15 := scaleDict (3/2) upper
  let r2 := optimize_strict solver t req up15 W fixed mins
  if truthy r2 then r2 else
  let r3 := optimize_strict solver t (scaleDict (19/20) req) up15 W fixed mins
  if truthy r3 then r3 else
  let r4 := optimize_strict solver t (scaleDict (9/10) req) up15 W fixed mins
  if truthy r4 then r4 else
  let r5 := optimize_strict solver t (scaleDict (17/20) req) up15 W fixed mins
  if truthy r5 then r5 else
  let r6 := optimize_strict solver t (scaleDict (4/5) req) up15 W fixed mins
  if truthy r6 then r6 else
  let r7 := optimize_strict solver t
    (req.filter (fun kv => kv.1 ∈ essential_nutrients)) [] W fixed mins
  if truthy r7 then r7 else
  let r8 := optimize_calorie_focused solver t req [] W fixed mins
  if truthy r8 then r8 else
  some (optimize_best_effort t req W fixed mins none)

/-- The attempt inputs of the balanced cascade as the specification lists
them: `(requirements, upper limits)` per strict attempt, in order. -/
def balancedAttemptInputs (req upper : Dict) : List (Dict × Dict) :=
  [(req, upper),
   (req, scaleDict (3/2) upper),
   (scaleDict (19/20) req, scaleDict (3/2) upper),
   (scaleDict (9/10) req, scaleDict (3/2) upper),
   (scaleDict (17/20) req, scaleDict (3/2) upper),
   (scaleDict (4/5) req, scaleDict (3/2) upper),
   (req.filter (fun kv => kv.1 ∈ essential_nutrients), [])]

/-- Run an ordered list of strict attempts, stopping at the first success;
fall through to `tail` when none succeeds. -/
def cascadeSpec (solver : Solver) (t : FoodTable) (W : ℚ)
    (fixed mins : Dict) : List (Dict × Dict) → Option Dict → Option Dict
  | [], tail => tail
  | (rq, up) :: rest, tail =>
      let r := optimize_strict solver t rq up W fixed mins
      if truthy r then r else cascadeSpec solver t W fixed mins rest tail

/-- The balanced strategy as claim C1 states it: the fixed ordered strict
attempts, then the calorie-focused solve with no upper limits, then the
best-effort greedy heuristic, stopping at the first success. -/
def balancedCascade (solver : Solver) (t : FoodTable) (req upper : Dict)
    (W : ℚ) (fixed mins : Dict) : Option Dict :=
  cascadeSpec solver t W fixed mins (balancedAttemptInputs req upper)
    (let r := optimize_calorie_focused solver t req [] W fixed mins
     if truthy r then r
     else some (optimize_best_effort t req W fixed mins none))

/-- The calorie-focused constraint set as claim C3 words it (for
comparison): energy at least 95% of the target, energy at most 110% of the
target, protein at least the full target, the upper limits, and the
total-weight bound, each net of fixed-pin contributions. -/
def calorieClaimLP (t : FoodTable) (req upper : Dict) (W : ℚ)
    (fixed mins : Dict) : LPProblem :=
  let fixedN := fixedNutrition t req fixed
  let varR := variableRows t fixed
  let energyRows : List (List ℚ × ℚ) :=
    match dget req "energy_kcal" with
    | some e =>
        [(varR.map (fun r => -((dget r.cells "energy_kcal").getD 0) / 100),
            -((19/20) * e - fixedN "energy_kcal")),
         (varR.map (fun r => ((dget r.cells "energy_kcal").getD 0) / 100),
            (11/10) * e - fixedN "energy_kcal")]
    | none => []
  let proteinRows : List (List ℚ × ℚ) :=
    match dget req "protein_g" with
    | some p =>
        [(varR.map (fun r => -((dget r.cells "protein_g").getD 0) / 100),
            -(p - fixedN "protein_g"))]
    | none => []
  { c := varR.map (fun r => r.price_per_100g / 100)
    constrs := energyRows ++ proteinRows
      ++ upperConstrs t.cols varR upper fixedN
      ++ [(List.replicate varR.length 1, W - fixedTotal fixed)]
    bounds := lpBounds varR mins }

/-- The calorie-focused constraint set as amended: an energy floor at the
full remaining target (emitted only when the nutrient is requested, is a
column, and the remaining target is positive), a protein floor likewise,
the upper-limit rows with positive remaining limits, and the total-weight
bound — nothing else, and no energy ceiling. -/
def calorieAmendedLP (t : FoodTable) (req upper : Dict) (W : ℚ)
    (fixed mins : Dict) : LPProblem :=
  let fixedN := fixedNutrition t req fixed
  let varR := variableRows t fixed
  let floorRow (n : String) : Option (List ℚ × ℚ) :=
    match dget req n with
    | some tgt =>
        if n ∈ t.cols ∧ 0 < tgt - fixedN n then
          some (varR.map (fun r => -((dget r.cells n).getD 0) / 100),
            -(tgt - fixedN n))
        else none
    | none => none
  { c := varR.map (fun r => r.price_per_100g / 100)
    constrs := (floorRow "energy_kcal").toList ++ (floorRow "protein_g").toList
      ++ upperConstrs t.cols varR upper fixedN
      ++ [(List.replicate varR.length 1, W - fixedTotal fixed)]
    bounds := lpBounds varR mins }

/-- The best-effort score as claim C7 words it:
`(energy + protein*10 + calcium*0.1 + iron*5) / price`, 0 when the price is
non-positive, absent values as 0. -/
def claimScore7 (cols : List String) (r : FoodRow) : ℚ :=
  if r.price_per_100g ≤ 0 then 0
  else
    ((seriesGet cols r "energy_kcal").getD 0
      + (seriesGet cols r "protein_g").getD 0 * 10
      + (seriesGet cols r "calcium_mg").getD 0 * (1/10)
      + (seriesGet cols r "iron_mg").getD 0 * 5) / r.price_per_100g

/-- The total amount of one nutrient contributed by a result map, following
`calculate_totals` (optimize.py:840-862): unknown foods are skipped, `NaN`
cells count as 0, each food contributes `value × grams/100`. -/
def totalNutrient (t : FoodTable) (amounts : Dict) (n : String) : ℚ :=
  (amounts.map (fun kv =>
    match get_food_row t kv.1 with
    | none => 0
    | some r => (dget r.cells n).getD 0 * (kv.2 / 100))).sum

/-- The strategy selector of the API (api/models.py:7-14). -/
inductive OptimizeStrategy
  | strict
  | calorie_focused
  | balanced
  | custom_score
  | best_effort
  | cost_limited
deriving DecidableEq

/-- The `amounts` computation of `FoodService.optimize`
(api/services.py:113-182): an if/elif chain on the selector handling only
`strict`, `calorie_focused` and `custom_score`, with every other selector
(including `best_effort` and `cost_limited`) falling into the balanced
`else` branch; no minimum pins and no budget cap are ever forwarded. -/
def serviceStrategyAmounts (solver : Solver) (strategy : OptimizeStrategy)
    (t : FoodTable) (req upperD : Dict) (W : ℚ) (fixed : Dict)
    (p : ScoringParams) : Option Dict :=
  match strategy with
  | .strict => optimize_strict solver t req upperD W fixed []
  | .calorie_focused => optimize_calorie_focused solver t req upperD W fixed []
  | .custom_score => optimize_with_score solver t req upperD W fixed p []
  | _ => optimize_diet solver t req upperD W fixed []

/-- A single-food table used to evaluate the service dispatch. -/
def c2T : FoodTable :=
  { cols := ["energy_kcal"]
    rows := [{ name := "A", price_per_100g := 100
               cells := [("energy_kcal", 100)] }] }

/-- Energy-only requirements for the dispatch evaluation. -/
def c2req : Dict := [("energy_kcal", 50)]

/-- A solver that always reports the vector `[200]`. -/
def c2solver : Solver := fun _ => some [200]

/-- Neutral scoring parameters for the dispatch evaluation. -/
def c2params : ScoringParams :=
  { deficit_penalty := 1, cost_bonus := 1, calorie_weight := 1
    protein_weight := 1, vitamin_weight := 1, mineral_weight := 1 }

/-- Table and pins on which the strict builder's upper-limit check is
already violated by the fixed pins alone: food B is pinned at 300 g and
contributes 150 µg of vitamin A against an upper limit of 100. -/
def c6T : FoodTable :=
  { cols := ["vitamin_a_ug"]
    rows := [{ name := "A", price_per_100g := 10
               cells := [("vitamin_a_ug", 50)] },
             { name := "B", price_per_100g := 20
               cells := [("vitamin_a_ug", 50)] }] }

/-- Requirements naming vitamin A (so the fixed contribution is tracked). -/
def c6req : Dict := [("vitamin_a_ug", 10)]

/-- Upper limit of 100 µg of vitamin A. -/
def c6upper : Dict := [("vitamin_a_ug", 100)]

/-- B pinned at 300 g. -/
def c6fixed : Dict := [("B", 300)]

/-- A solver that always reports the vector `[100]`. -/
def c6solver : Solver := fun _ => some [100]

/-- A one-food table with a positive price, for the best-effort
counterexample: weight cap 5 g is positive but below the 10 g increment
floor. -/
def c5T : FoodTable :=
  { cols := ["energy_kcal"]
    rows := [{ name := "A", price_per_100g := 100
               cells := [("energy_kcal", 100)] }] }

/-- A priced row whose only nonzero score nutrient is energy (the others
present as explicit zeros), separating the code's 0.5 energy weight from the
claim's 1. -/
def c7row : FoodRow :=
  { name := "A", price_per_100g := 100
    cells := [("energy_kcal", 100), ("protein_g", 0), ("calcium_mg", 0),
              ("iron_mg", 0)] }

/-- The columns of the score counterexample. -/
def c7cols : List String :=
  ["energy_kcal", "protein_g", "calcium_mg", "iron_mg"]

/-- A fully populated row for the amended-score witness. -/
def c7wRow : FoodRow :=
  { name := "A", price_per_100g := 100
    cells := [("energy_kcal", 100), ("protein_g", 10), ("calcium_mg", 50),
              ("iron_mg", 2)] }

/-- A one-food table for the minimum-pin counterexample: the pin of 20 g is
clamped to the 10 g remaining under the weight cap. -/
def c8T : FoodTable :=
  { cols := []
    rows := [{ name := "A", price_per_100g := 100, cells := [] }] }

/-- A one-food table for the bounds counterexample. -/
def c9T : FoodTable :=
  { cols := ["energy_kcal"]
    rows := [{ name := "A", price_per_100g := 100
               cells := [("energy_kcal", 100)] }] }

/-- A one-food table for the calorie-focused constraint counterexample. -/
def c3T : FoodTable :=
  { cols := ["energy_kcal", "protein_g"]
    rows := [{ name := "A", price_per_100g := 100
               cells := [("energy_kcal", 100), ("protein_g", 10)] }] }

/-- Requirements for the calorie-focused counterexample. -/
def c3req : Dict := [("energy_kcal", 1000), ("protein_g", 50)]

/-- A solver that always fails. -/
def failSolver : Solver := fun _ => none

/-- A solver that always reports the vector `[50]`, for witnesses. -/
def wSolver : Solver := fun _ => some [50]

/-- A two-food table used to instantiate the invariant theorems. -/
def wT : FoodTable :=
  { cols := []
    rows := [{ name := "A", price_per_100g := 50, cells := [] },
             { name := "B", price_per_100g := 50, cells := [] }] }

/-! ### Dictionary lemmas -/

theorem dget_setv_self (d : Dict) (k : String) (v : ℚ) :
    dget (setv d k v) k = some v := by
  induction d with
  | nil => simp [setv, dget]
  | cons kv rest ih =>
      by_cases hk : kv.1 = k
      · simp [setv, hk, dget]
      · simpa [setv, hk, dget, Ne.symm hk] using ih

theorem dget_setv_ne (d : Dict) (k k' : String) (v : ℚ) (h : k' ≠ k) :
    dget (setv d k v) k' = dget d k' := by
  induction d with
  | nil => simp [setv, dget, h]
  | cons kv rest ih =>
      by_cases hk : kv.1 = k
      · subst hk
        simp [setv, dget, h]
      · by_cases hk' : k' = kv.1
        · simp [setv, hk, dget, hk']
        · simp [setv, hk, dget, hk', ih]

theorem dget_eq_none_of_not_mem (d : Dict) (k : String) (h : k ∉ dkeys d) :
    dget d k = none := by
  induction d with
  | nil => rfl
  | cons kv rest ih =>
      simp only [dkeys, List.map_cons, List.mem_cons, not_or] at h
      simp [dget, h.1, ih (by simpa [dkeys] using h.2)]

theorem dget_isSome_of_mem (d : Dict) (k : String) (h : k ∈ dkeys d) :
    (dget d k).isSome := by
  induction d with
  | nil => simp [dkeys] at h
  | cons kv rest ih =>
      by_cases hk : k = kv.1
      · simp [dget, hk]
      · simp only [dkeys, List.map_cons, List.mem_cons] at h
        rcases h with h | h
        · exact absurd h hk
        · simpa [dget, hk] using ih (by simpa [dkeys] using h)

theorem not_mem_dkeys_of_dget_eq_none (d : Dict) (k : String)
    (h : dget d k = none) : k ∉ dkeys d := by
  intro hm
  have := dget_isSome_of_mem d k hm
  rw [h] at this
  simp at this

theorem dget_updateAll_not_mem (upd : Dict) (d : Dict) (f : String)
    (h : f ∉ dkeys upd) : dget (updateAll d upd) f = dget d f := by
  induction upd generalizing d with
  | nil => rfl
  | cons kv rest ih =>
      simp only [dkeys, List.map_cons, List.mem_cons, not_or] at h
      rw [updateAll, ih _ (by simpa [dkeys] using h.2),
        dget_setv_ne _ _ _ _ h.1]

theorem dget_updateAll_mem (upd : Dict) (d : Dict) (f : String)
    (hn : (dkeys upd).Nodup) (h : f ∈ dkeys upd) :
    dget (updateAll d upd) f = dget upd f := by
  induction upd generalizing d with
  | nil => simp [dkeys] at h
  | cons kv rest ih =>
      simp only [dkeys, List.map_cons, List.nodup_cons] at hn
      simp only [dkeys, List.map_cons, List.mem_cons] at h
      by_cases hk : f = kv.1
      · subst hk
        rw [updateAll, dget_updateAll_not_mem _ _ _ (by simpa [dkeys] using hn.1),
          dget_setv_self, dget]
        simp
      · rcases h with h | h
        · exact absurd h hk
        · rw [updateAll, ih _ hn.2 (by simpa [dkeys] using h), dget]
          simp [hk]

theorem setv_ne_nil (d : Dict) (k : String) (v : ℚ) : setv d k v ≠ [] := by
  cases d with
  | nil => simp [setv]
  | cons kv rest =>
      by_cases hk : kv.1 = k <;> simp [setv, hk]

/-! ### Lemmas about the shared post-solve minimum enforcement -/

theorem dget_enforceMins_not_mem (mins : Dict) (names : List String)
    (a : Dict) (f : String) (h : f ∉ dkeys mins) :
    dget (enforceMins names a mins) f = dget a f := by
  induction mins generalizing a with
  | nil => rfl
  | cons kv rest ih =>
      simp only [dkeys, List.map_cons, List.mem_cons, not_or] at h
      rw [enforceMins, ih _ (by simpa [dkeys] using h.2)]
      split
      · split
        · exact dget_setv_ne _ _ _ _ h.1
        · split
          · exact dget_setv_ne _ _ _ _ h.1
          · rfl
      · rfl

theorem enforceMins_ge (mins : Dict) (names : List String) (a : Dict)
    (f : String) (m : ℚ) (hn : (dkeys mins).Nodup) (hm : (f, m) ∈ mins)
    (hf : f ∈ names) (h1 : 1 ≤ m) (hr : round1 m = m) :
    ∃ v, dget (enforceMins names a mins) f = some v ∧ m ≤ v := by
  induction mins generalizing a with
  | nil => simp at hm
  | cons kv rest ih =>
      simp only [dkeys, List.map_cons, List.nodup_cons] at hn
      rcases List.mem_cons.mp hm with hm | hm
      · subst hm
        have hrest : f ∉ dkeys rest := by simpa [dkeys] using hn.1
        rw [enforceMins, dget_enforceMins_not_mem _ _ _ _ hrest]
        simp only [hf, h1, and_self, if_true]
        cases ha : dget a f with
        | none =>
            refine ⟨m, ?_, le_refl m⟩
            simp only [hr, dget_setv_self]
        | some v =>
            by_cases hv : v < m
            · refine ⟨m, ?_, le_refl m⟩
              simp only [if_pos hv, hr, dget_setv_self]
            · refine ⟨v, ?_, le_of_not_lt hv⟩
              simp only [if_neg hv, ha]
      · have hfk : f ≠ kv.1 := by
          intro he
          exact hn.1 (he ▸ List.mem_map.mpr ⟨(f, m), hm, rfl⟩)
        rw [enforceMins]
        exact ih _ hn.2 hm

/-! ### Lemmas about the variable-food selection -/

theorem variableRows_eq_nil (t : FoodTable) (fixed : Dict)
    (h : ∀ r ∈ t.rows, r.name ∈ dkeys fixed) : variableRows t fixed = [] := by
  rw [variableRows, List.filter_eq_nil_iff]
  intro r hr
  have hs := dget_isSome_of_mem fixed r.name (h r hr)
  cases hd : dget fixed r.name with
  | none => rw [hd] at hs; simp at hs
  | some v => simp [hd]

theorem variableRows_no_fixed (t : FoodTable) : variableRows t [] = t.rows := by
  rw [variableRows]
  apply List.filter_eq_self.mpr
  intro r hr
  simp [dget]

theorem mem_variableRows_names (t : FoodTable) (fixed : Dict) (f : String)
    (hf : f ∈ t.rows.map FoodRow.name) (hnf : f ∉ dkeys fixed) :
    f ∈ (variableRows t fixed).map FoodRow.name := by
  rcases List.mem_map.mp hf with ⟨r, hr, hname⟩
  refine List.mem_map.mpr ⟨r, ?_, hname⟩
  rw [variableRows, List.mem_filter]
  exact ⟨hr, by simp [hname, dget_eq_none_of_not_mem fixed f hnf]⟩

theorem find_name_isSome (l : List FoodRow) (f : String)
    (h : ∃ r ∈ l, r.name = f) : (l.find? (fun r => r.name == f)).isSome := by
  induction l with
  | nil => simp at h
  | cons hd tl ih =>
      rcases h with ⟨r, hr, hname⟩
      by_cases hb : hd.name = f
      · rw [List.find?_cons_of_pos _ (by simp [hb])]
        rfl
      · rw [List.find?_cons_of_neg _ (by simp [hb])]
        rcases List.mem_cons.mp hr with hh | hh
        · exact absurd (hh ▸ hname) hb
        · exact ih ⟨r, hh, hname⟩

theorem get_food_row_isSome (t : FoodTable) (f : String)
    (hf : f ∈ t.rows.map FoodRow.name) : (get_food_row t f).isSome := by
  rw [get_food_row]
  rcases List.mem_map.mp hf with ⟨r, hr, hname⟩
  exact find_name_isSome t.rows f ⟨r, hr, hname⟩

/-! ### Lemmas about the best-effort sort -/

theorem mem_insertDesc (cols : List String) (r x : FoodRow)
    (l : List FoodRow) : x ∈ insertDesc cols r l ↔ x = r ∨ x ∈ l := by
  induction l with
  | nil => simp [insertDesc]
  | cons h tl ih =>
      rw [insertDesc]
      split
      · simp
      · simp [ih]
        tauto

theorem mem_sortByScoreDesc (cols : List String) (x : FoodRow)
    (l : List FoodRow) : x ∈ sortByScoreDesc cols l ↔ x ∈ l := by
  induction l with
  | nil => simp [sortByScoreDesc]
  | cons h tl ih => simp [sortByScoreDesc, mem_insertDesc, ih]

theorem scoreGE_total (a b : Option ℚ) : scoreGE a b = true ∨ scoreGE b a = true := by
  cases a <;> cases b <;> simp [scoreGE, le_total]

theorem scoreGE_trans (a b c : Option ℚ) (h1 : scoreGE a b = true)
    (h2 : scoreGE b c = true) : scoreGE a c = true := by
  cases a <;> cases b <;> cases c <;> simp_all [scoreGE]
  exact le_trans h2 h1

theorem pairwise_insertDesc (cols : List String) (r : FoodRow)
    (l : List FoodRow)
    (h : l.Pairwise (fun a b => scoreGE (calc_score cols a) (calc_score cols b) = true)) :
    (insertDesc cols r l).Pairwise
      (fun a b => scoreGE (calc_score cols a) (calc_score cols b) = true) := by
  induction h with
  | nil => simp [insertDesc]
  | @cons hd tl hhd htl ih =>
      rw [insertDesc]
      split
      · rename_i hge
        refine List.pairwise_cons.mpr ⟨?_, List.pairwise_cons.mpr ⟨hhd, htl⟩⟩
        intro b hb
        rcases List.mem_cons.mp hb with hb | hb
        · exact hb ▸ hge
        · exact scoreGE_trans _ _ _ hge (hhd b hb)
      · rename_i hlt
        refine List.pairwise_cons.mpr ⟨?_, ih⟩
        intro b hb
        rcases (mem_insertDesc cols r b tl).mp hb with hb | hb
        · rcases scoreGE_total (calc_score cols b) (calc_score cols hd) with hc | hc
          · exact absurd (hb ▸ hc) hlt
          · exact hc
        · exact hhd b hb

theorem sortByScoreDesc_sorted (cols : List String) (l : List FoodRow) :
    (sortByScoreDesc cols l).Pairwise
      (fun a b => scoreGE (calc_score cols a) (calc_score cols b) = true) := by
  induction l with
  | nil => simp [sortByScoreDesc]
  | cons h tl ih => exact pairwise_insertDesc cols h _ ih

/-! ### Lemmas about the best-effort passes -/

theorem beMinFold_amounts_not_mem (t : FoodTable) (fixed : Dict)
    (mins : Dict) (st : BEState) (f : String) (h : f ∉ dkeys mins) :
    dget (beMinFold t fixed st mins).amounts f = dget st.amounts f := by
  induction mins generalizing st with
  | nil => rfl
  | cons kv rest ih =>
      simp only [dkeys, List.map_cons, List.mem_cons, not_or] at h
      rw [beMinFold]
      split
      · exact ih _ (by simpa [dkeys] using h.2)
      · split
        · exact ih _ (by simpa [dkeys] using h.2)
        · dsimp only
          split
          · rw [ih _ (by simpa [dkeys] using h.2)]
            exact dget_setv_ne _ _ _ _ h.1
          · exact ih _ (by simpa [dkeys] using h.2)

theorem beMinFold_amounts_fixed (t : FoodTable) (fixed : Dict)
    (mins : Dict) (st : BEState) (f : String)
    (hf : (dget fixed f).isSome) :
    dget (beMinFold t fixed st mins).amounts f = dget st.amounts f := by
  induction mins generalizing st with
  | nil => rfl
  | cons kv rest ih =>
      rw [beMinFold]
      split
      · exact ih _
      · rename_i hks
        have hne : kv.1 ≠ f := by
          intro he
          rw [he] at hks
          exact hks (by simpa using hf)
        split
        · exact ih _
        · dsimp only
          split
          · rw [ih _]
            exact dget_setv_ne _ _ _ _ (Ne.symm hne)
          · exact ih _

theorem beMinFold_reach (t : FoodTable) (fixed : Dict) (mins : Dict)
    (st : BEState) (f : String) (m : ℚ) (hn : (dkeys mins).Nodup)
    (hm : (f, m) ∈ mins) (hnf : f ∉ dkeys fixed)
    (hrow : (get_food_row t f).isSome) (h1 : 1 ≤ m) (hr : round1 m = m)
    (hpos : ∀ kv ∈ mins, 0 ≤ kv.2)
    (hsum : (mins.map Prod.snd).sum ≤ st.rw) :
    dget (beMinFold t fixed st mins).amounts f = some m := by
  induction mins generalizing st with
  | nil => simp at hm
  | cons kv rest ih =>
      simp only [dkeys, List.map_cons, List.nodup_cons] at hn
      have hrest_nonneg : 0 ≤ (rest.map Prod.snd).sum :=
        List.sum_nonneg (by
          intro x hx
          rcases List.mem_map.mp hx with ⟨p, hp, hpx⟩
          exact hpx ▸ hpos p (List.mem_cons_of_mem kv hp))
      have hkv_nonneg : 0 ≤ kv.2 := hpos kv (List.mem_cons_self kv rest)
      rw [List.map_cons, List.sum_cons] at hsum
      rcases List.mem_cons.mp hm with hm' | hm'
      · have hk : kv = (f, m) := hm'.symm
        subst hk
        have hfix : ¬((dget fixed f).isSome = true) := by
          rw [dget_eq_none_of_not_mem fixed f hnf]
          simp
        rw [beMinFold, if_neg hfix]
        cases hgr : get_food_row t f with
        | none => rw [hgr] at hrow; simp at hrow
        | some row =>
            have hmle : m ≤ st.rw := le_trans (by linarith) hsum
            have hamount : min m st.rw = m := min_eq_left hmle
            have hpos' : (0:ℚ) < min m st.rw := by
              rw [hamount]; linarith
            simp only [hpos', if_true]
            rw [beMinFold_amounts_not_mem t fixed rest _ f
              (by simpa [dkeys] using hn.1)]
            simp only [hamount, hr]
            exact dget_setv_self _ _ _
      · have hfk : f ≠ kv.1 := by
          intro he
          exact hn.1 (he ▸ List.mem_map.mpr ⟨(f, m), hm', rfl⟩)
        have hposrest : ∀ p ∈ rest, 0 ≤ p.2 :=
          fun p hp => hpos p (List.mem_cons_of_mem kv hp)
        rw [beMinFold]
        split
        · exact ih _ hn.2 hm' hposrest (by linarith)
        · split
          · exact ih _ hn.2 hm' hposrest (by linarith)
          · dsimp only
            split
            · refine ih _ hn.2 hm' hposrest ?_
              have : min kv.2 st.rw ≤ kv.2 := min_le_left _ _
              simp only
              linarith
            · exact ih _ hn.2 hm' hposrest (by linarith)

theorem beGreedyFold_preserve (l : List FoodRow) (st : BEState) (f : String)
    (v : ℚ) (h : dget st.amounts f = some v) :
    dget (beGreedyFold st l).amounts f = some v := by
  induction l generalizing st with
  | nil => exact h
  | cons row rest ih =>
      rw [beGreedyFold]
      split
      · exact ih _ h
      · rename_i hns
        have hne : row.name ≠ f := by
          intro he
          rw [he, h] at hns
          simp at hns
        dsimp only
        split
        · exact ih _ h
        · split
          · simpa using (dget_setv_ne st.amounts row.name f _ (Ne.symm hne)).trans h
          · refine ih _ ?_
            simpa using (dget_setv_ne st.amounts row.name f _ (Ne.symm hne)).trans h

theorem beGreedyFold_ne_nil (l : List FoodRow) (st : BEState)
    (h : st.amounts ≠ []) : (beGreedyFold st l).amounts ≠ [] := by
  induction l generalizing st with
  | nil => exact h
  | cons row rest ih =>
      rw [beGreedyFold]
      split
      · exact ih _ h
      · dsimp only
        split
        · exact ih _ h
        · split
          · simpa using setv_ne_nil st.amounts row.name _
          · exact ih _ (by simpa using setv_ne_nil st.amounts row.name _)

theorem beGreedyFold_adds (l : List FoodRow) (st : BEState)
    (ha : st.amounts = []) (h : ∃ r ∈ l, ¬ beAmount st r < 10) :
    (beGreedyFold st l).amounts ≠ [] := by
  induction l with
  | nil => simp at h
  | cons row rest ih =>
      rw [beGreedyFold]
      have hns : ¬((dget st.amounts row.name).isSome = true) := by
        rw [ha]; simp [dget]
      rw [if_neg hns]
      dsimp only
      by_cases hlt : beAmount st row < 10
      · rw [if_pos hlt]
        rcases h with ⟨r, hr, hge⟩
        rcases List.mem_cons.mp hr with hr' | hr'
        · exact absurd (hr' ▸ hge) (by simpa using hlt)
        · exact ih ⟨r, hr', hge⟩
      · rw [if_neg hlt]
        split
        · simpa using setv_ne_nil st.amounts row.name _
        · exact beGreedyFold_ne_nil _ _ (by simpa using setv_ne_nil st.amounts row.name _)

/-! ### Per-strategy fixed-pin preservation -/

theorem lpPost_fixed (xs : List ℚ) (names : List String) (mins fixed : Dict)
    (hfix : (dkeys fixed).Nodup) (f : String) (hf : f ∈ dkeys fixed) :
    dget (updateAll (enforceMins names (extractAmounts xs names) mins) fixed) f
      = dget fixed f :=
  dget_updateAll_mem fixed _ f hfix hf

theorem strict_fixed_pin (solver : Solver) (t : FoodTable) (req upper : Dict)
    (W : ℚ) (fixed mins : Dict) (hfix : (dkeys fixed).Nodup) (f : String)
    (hf : f ∈ dkeys fixed) :
    ∀ a, optimize_strict solver t req upper W fixed mins = some a →
      dget a f = dget fixed f := by
  intro a h
  rw [optimize_strict] at h
  dsimp only at h
  split at h
  · split at h
    · simp at h
    · injection h with h
      rw [← h]
  · split at h
    · simp at h
    · split at h
      · simp at h
      · injection h with h
        rw [← h]
        exact lpPost_fixed _ _ _ _ hfix f hf

theorem calorie_fixed_pin (solver : Solver) (t : FoodTable) (req upper : Dict)
    (W : ℚ) (fixed mins : Dict) (hfix : (dkeys fixed).Nodup) (f : String)
    (hf : f ∈ dkeys fixed) :
    ∀ a, optimize_calorie_focused solver t req upper W fixed mins = some a →
      dget a f = dget fixed f := by
  intro a h
  rw [optimize_calorie_focused] at h
  dsimp only at h
  split at h
  · split at h
    · simp at h
    · injection h with h
      rw [← h]
  · split at h
    · simp at h
    · split at h
      · simp at h
      · injection h with h
        rw [← h]
        exact lpPost_fixed _ _ _ _ hfix f hf

theorem score_fixed_pin (solver : Solver) (t : FoodTable) (req upper : Dict)
    (W : ℚ) (fixed : Dict) (p : ScoringParams) (mins : Dict)
    (hfix : (dkeys fixed).Nodup) (f : String) (hf : f ∈ dkeys fixed) :
    ∀ a, optimize_with_score solver t req upper W fixed p mins = some a →
      dget a f = dget fixed f := by
  intro a h
  rw [optimize_with_score] at h
  dsimp only at h
  split at h
  · split at h
    · simp at h
    · injection h with h
      rw [← h]
  · split at h
    · simp at h
    · injection h with h
      rw [← h]
      exact lpPost_fixed _ _ _ _ hfix f hf

theorem be_fixed_pin (t : FoodTable) (req : Dict) (W : ℚ) (fixed mins : Dict)
    (budget : Option ℚ) (f : String) (hf : f ∈ dkeys fixed) :
    dget (optimize_best_effort t req W fixed mins budget) f = dget fixed f := by
  rw [optimize_best_effort]
  dsimp only
  split
  · split
    · rename_i hemp
      rw [List.isEmpty_iff] at hemp
      rw [hemp] at hf
      simp [dkeys] at hf
    · rfl
  · have hs := dget_isSome_of_mem fixed f hf
    obtain ⟨v, hv⟩ := Option.isSome_iff_exists.mp hs
    have h1 := beMinFold_amounts_fixed t fixed mins
      { amounts := fixed, rw := W - fixedTotal fixed
        rb := budget.map (fun b => b - fixedCost t fixed) } f hs
    rw [hv] at h1
    rw [beGreedyFold_preserve _ _ f v (h1.trans rfl), hv]

theorem costlim_fixed_pin (solver : Solver) (t : FoodTable) (req upper : Dict)
    (W : ℚ) (fixed : Dict) (maxCost : ℚ) (mins : Dict)
    (hfix : (dkeys fixed).Nodup) (f : String) (hf : f ∈ dkeys fixed) :
    dget (optimize_cost_limited solver t req upper W fixed maxCost mins) f
      = dget fixed f := by
  rw [optimize_cost_limited]
  dsimp only
  split
  · split
    · rename_i hemp
      rw [List.isEmpty_iff] at hemp
      rw [hemp] at hf
      simp [dkeys] at hf
    · rfl
  · split
    · exact be_fixed_pin t req W fixed mins (some maxCost) f hf
    · exact lpPost_fixed _ _ _ _ hfix f hf

theorem diet_fixed_pin (solver : Solver) (t : FoodTable) (req upper : Dict)
    (W : ℚ) (fixed mins : Dict) (hfix : (dkeys fixed).Nodup) (f : String)
    (hf : f ∈ dkeys fixed) :
    ∀ a, optimize_diet solver t req upper W fixed mins = some a →
      dget a f = dget fixed f := by
  intro a h
  rw [optimize_diet] at h
  dsimp only at h
  split at h
  · exact strict_fixed_pin solver t _ _ W fixed mins hfix f hf a h
  · split at h
    · exact strict_fixed_pin solver t _ _ W fixed mins hfix f hf a h
    · split at h
      · exact strict_fixed_pin solver t _ _ W fixed mins hfix f hf a h
      · split at h
        · exact strict_fixed_pin solver t _ _ W fixed mins hfix f hf a h
        · split at h
          · exact strict_fixed_pin solver t _ _ W fixed mins hfix f hf a h
          · split at h
            · exact strict_fixed_pin solver t _ _ W fixed mins hfix f hf a h
            · split at h
              · exact strict_fixed_pin solver t _ _ W fixed mins hfix f hf a h
              · split at h
                · exact calorie_fixed_pin solver t _ _ W fixed mins hfix f hf a h
                · injection h with h
                  rw [← h]
                  exact be_fixed_pin t req W fixed mins none f hf

/-! ### Per-strategy minimum-pin lower bounds -/

theorem lpPost_min (xs : List ℚ) (names : List String) (mins fixed : Dict)
    (f : String) (m : ℚ) (hn : (dkeys mins).Nodup) (hm : (f, m) ∈ mins)
    (hf : f ∈ names) (h1 : 1 ≤ m) (hr : round1 m = m)
    (hnf : f ∉ dkeys fixed) :
    ∃ v, dget (updateAll (enforceMins names (extractAmounts xs names) mins) fixed) f
      = some v ∧ m ≤ v := by
  rw [dget_updateAll_not_mem fixed _ f hnf]
  exact enforceMins_ge mins names _ f m hn hm hf h1 hr

theorem strict_min_pin (solver : Solver) (t : FoodTable) (req upper : Dict)
    (W : ℚ) (fixed mins : Dict) (f : String) (m : ℚ)
    (hn : (dkeys mins).Nodup) (hm : (f, m) ∈ mins) (h1 : 1 ≤ m)
    (hr : round1 m = m) (hft : f ∈ t.rows.map FoodRow.name)
    (hnf : f ∉ dkeys fixed) :
    ∀ a, optimize_strict solver t req upper W fixed mins = some a →
      ∃ v, dget a f = some v ∧ m ≤ v := by
  intro a h
  have hfv := mem_variableRows_names t fixed f hft hnf
  rw [optimize_strict] at h
  dsimp only at h
  split at h
  · rename_i hemp
    rw [List.isEmpty_iff] at hemp
    rw [hemp] at hfv
    simp at hfv
  · split at h
    · simp at h
    · split at h
      · simp at h
      · injection h with h
        rw [← h]
        exact lpPost_min _ _ _ _ f m hn hm hfv h1 hr hnf

theorem calorie_min_pin (solver : Solver) (t : FoodTable) (req upper : Dict)
    (W : ℚ) (fixed mins : Dict) (f : String) (m : ℚ)
    (hn : (dkeys mins).Nodup) (hm : (f, m) ∈ mins) (h1 : 1 ≤ m)
    (hr : round1 m = m) (hft : f ∈ t.rows.map FoodRow.name)
    (hnf : f ∉ dkeys fixed) :
    ∀ a, optimize_calorie_focused solver t req upper W fixed mins = some a →
      ∃ v, dget a f = some v ∧ m ≤ v := by
  intro a h
  have hfv := mem_variableRows_names t fixed f hft hnf
  rw [optimize_calorie_focused] at h
  dsimp only at h
  split at h
  · rename_i hemp
    rw [List.isEmpty_iff] at hemp
    rw [hemp] at hfv
    simp at hfv
  · split at h
    · simp at h
    · split at h
      · simp at h
      · injection h with h
        rw [← h]
        exact lpPost_min _ _ _ _ f m hn hm hfv h1 hr hnf

theorem score_min_pin (solver : Solver) (t : FoodTable) (req upper : Dict)
    (W : ℚ) (fixed : Dict) (p : ScoringParams) (mins : Dict) (f : String)
    (m : ℚ) (hn : (dkeys mins).Nodup) (hm : (f, m) ∈ mins) (h1 : 1 ≤ m)
    (hr : round1 m = m) (hft : f ∈ t.rows.map FoodRow.name)
    (hnf : f ∉ dkeys fixed) :
    ∀ a, optimize_with_score solver t req upper W fixed p mins = some a →
      ∃ v, dget a f = some v ∧ m ≤ v := by
  intro a h
  have hfv := mem_variableRows_names t fixed f hft hnf
  rw [optimize_with_score] at h
  dsimp only at h
  split at h
  · rename_i hemp
    rw [List.isEmpty_iff] at hemp
    rw [hemp] at hfv
    simp at hfv
  · split at h
    · simp at h
    · injection h with h
      rw [← h]
      exact lpPost_min _ _ _ _ f m hn hm hfv h1 hr hnf

theorem be_min_pin (t : FoodTable) (req : Dict) (W : ℚ) (fixed mins : Dict)
    (budget : Option ℚ) (f : String) (m : ℚ) (hn : (dkeys mins).Nodup)
    (hm : (f, m) ∈ mins) (h1 : 1 ≤ m) (hr : round1 m = m)
    (hft : f ∈ t.rows.map FoodRow.name) (hnf : f ∉ dkeys fixed)
    (hpos : ∀ kv ∈ mins, 0 ≤ kv.2)
    (hsum : (mins.map Prod.snd).sum ≤ W - fixedTotal fixed) :
    ∃ v, dget (optimize_best_effort t req W fixed mins budget) f = some v
      ∧ m ≤ v := by
  have hfv := mem_variableRows_names t fixed f hft hnf
  rw [optimize_best_effort]
  dsimp only
  split
  · rename_i hemp
    rw [List.isEmpty_iff] at hemp
    rw [hemp] at hfv
    simp at hfv
  · have hreach := beMinFold_reach t fixed mins
      { amounts := fixed, rw := W - fixedTotal fixed
        rb := budget.map (fun b => b - fixedCost t fixed) } f m hn hm hnf
      (get_food_row_isSome t f hft) h1 hr hpos hsum
    exact ⟨m, beGreedyFold_preserve _ _ f m hreach, le_refl m⟩

theorem costlim_min_pin (solver : Solver) (t : FoodTable) (req upper : Dict)
    (W : ℚ) (fixed : Dict) (maxCost : ℚ) (mins : Dict) (f : String) (m : ℚ)
    (hn : (dkeys mins).Nodup) (hm : (f, m) ∈ mins) (h1 : 1 ≤ m)
    (hr : round1 m = m) (hft : f ∈ t.rows.map FoodRow.name)
    (hnf : f ∉ dkeys fixed) (hpos : ∀ kv ∈ mins, 0 ≤ kv.2)
    (hsum : (mins.map Prod.snd).sum ≤ W - fixedTotal fixed) :
    ∃ v, dget (optimize_cost_limited solver t req upper W fixed maxCost mins) f
      = some v ∧ m ≤ v := by
  have hfv := mem_variableRows_names t fixed f hft hnf
  rw [optimize_cost_limited]
  dsimp only
  split
  · rename_i hemp
    rw [List.isEmpty_iff] at hemp
    rw [hemp] at hfv
    simp at hfv
  · split
    · exact be_min_pin t req W fixed mins (some maxCost) f m hn hm h1 hr hft hnf
        hpos hsum
    · exact lpPost_min _ _ _ _ f m hn hm hfv h1 hr hnf

theorem diet_min_pin (solver : Solver) (t : FoodTable) (req upper : Dict)
    (W : ℚ) (fixed mins : Dict) (f : String) (m : ℚ)
    (hn : (dkeys mins).Nodup) (hm : (f, m) ∈ mins) (h1 : 1 ≤ m)
    (hr : round1 m = m) (hft : f ∈ t.rows.map FoodRow.name)
    (hnf : f ∉ dkeys fixed) (hpos : ∀ kv ∈ mins, 0 ≤ kv.2)
    (hsum : (mins.map Prod.snd).sum ≤ W - fixedTotal fixed) :
    ∀ a, optimize_diet solver t req upper W fixed mins = some a →
      ∃ v, dget a f = some v ∧ m ≤ v := by
  intro a h
  rw [optimize_diet] at h
  dsimp only at h
  split at h
  · exact strict_min_pin solver t _ _ W fixed mins f m hn hm h1 hr hft hnf a h
  · split at h
    · exact strict_min_pin solver t _ _ W fixed mins f m hn hm h1 hr hft hnf a h
    · split at h
      · exact strict_min_pin solver t _ _ W fixed mins f m hn hm h1 hr hft hnf a h
      · split at h
        · exact strict_min_pin solver t _ _ W fixed mins f m hn hm h1 hr hft hnf a h
        · split at h
          · exact strict_min_pin solver t _ _ W fixed mins f m hn hm h1 hr hft hnf a h
          · split at h
            · exact strict_min_pin solver t _ _ W fixed mins f m hn hm h1 hr hft hnf a h
            · split at h
              · exact strict_min_pin solver t _ _ W fixed mins f m hn hm h1 hr hft hnf a h
              · split at h
                · exact calorie_min_pin solver t _ _ W fixed mins f m hn hm h1 hr hft hnf a h
                · injection h with h
                  rw [← h]
                  exact be_min_pin t req W fixed mins none f m hn hm h1 hr hft
                    hnf hpos hsum

/-! ### Per-strategy behaviour when every food is fixed -/

theorem strict_all_fixed (solver : Solver) (t : FoodTable) (req upper : Dict)
    (W : ℚ) (fixed mins : Dict) (h : ∀ r ∈ t.rows, r.name ∈ dkeys fixed) :
    optimize_strict solver t req upper W fixed mins
      = (if fixed.isEmpty then none else some fixed) := by
  rw [optimize_strict]
  dsimp only
  rw [variableRows_eq_nil t fixed h]
  simp

theorem calorie_all_fixed (solver : Solver) (t : FoodTable) (req upper : Dict)
    (W : ℚ) (fixed mins : Dict) (h : ∀ r ∈ t.rows, r.name ∈ dkeys fixed) :
    optimize_calorie_focused solver t req upper W fixed mins
      = (if fixed.isEmpty then none else some fixed) := by
  rw [optimize_calorie_focused]
  dsimp only
  rw [variableRows_eq_nil t fixed h]
  simp

theorem score_all_fixed (solver : Solver) (t : FoodTable) (req upper : Dict)
    (W : ℚ) (fixed : Dict) (p : ScoringParams) (mins : Dict)
    (h : ∀ r ∈ t.rows, r.name ∈ dkeys fixed) :
    optimize_with_score solver t req upper W fixed p mins
      = (if fixed.isEmpty then none else some fixed) := by
  rw [optimize_with_score]
  dsimp only
  rw [variableRows_eq_nil t fixed h]
  simp

theorem be_all_fixed (t : FoodTable) (req : Dict) (W : ℚ) (fixed mins : Dict)
    (budget : Option ℚ) (h : ∀ r ∈ t.rows, r.name ∈ dkeys fixed) :
    optimize_best_effort t req W fixed mins budget
      = (if fixed.isEmpty then [] else fixed) := by
  rw [optimize_best_effort]
  dsimp only
  rw [variableRows_eq_nil t fixed h]
  simp

theorem costlim_all_fixed (solver : Solver) (t : FoodTable) (req upper : Dict)
    (W : ℚ) (fixed : Dict) (maxCost : ℚ) (mins : Dict)
    (h : ∀ r ∈ t.rows, r.name ∈ dkeys fixed) :
    optimize_cost_limited solver t req upper W fixed maxCost mins
      = (if fixed.isEmpty then [] else fixed) := by
  rw [optimize_cost_limited]
  dsimp only
  rw [variableRows_eq_nil t fixed h]
  simp

theorem diet_all_fixed (solver : Solver) (t : FoodTable) (req upper : Dict)
    (W : ℚ) (fixed mins : Dict) (h : ∀ r ∈ t.rows, r.name ∈ dkeys fixed) :
    optimize_diet solver t req upper W fixed mins
      = (if fixed.isEmpty then some [] else some fixed) := by
  rw [optimize_diet]
  dsimp only
  rw [strict_all_fixed solver t req upper W fixed mins h,
    strict_all_fixed solver t req (scaleDict (3/2) upper) W fixed mins h,
    strict_all_fixed solver t (scaleDict (19/20) req) (scaleDict (3/2) upper) W fixed mins h,
    strict_all_fixed solver t (scaleDict (9/10) req) (scaleDict (3/2) upper) W fixed mins h,
    strict_all_fixed solver t (scaleDict (17/20) req) (scaleDict (3/2) upper) W fixed mins h,
    strict_all_fixed solver t (scaleDict (4/5) req) (scaleDict (3/2) upper) W fixed mins h,
    strict_all_fixed solver t (req.filter (fun kv => kv.1 ∈ essential_nutrients)) [] W fixed mins h,
    calorie_all_fixed solver t req [] W fixed mins h,
    be_all_fixed t req W fixed mins none h]
  by_cases hfe : fixed.isEmpty
  · simp [hfe, truthy]
  · simp [hfe, truthy]

/-! ### Claim theorems -/

/-- C1: the Balanced strategy (`optimize_diet`) runs exactly the claimed
cascade — strict with full requirements and upper limits; full requirements
with 1.5× upper limits; requirements × 0.95, 0.90, 0.85, 0.80 each with the
1.5× upper limits; the six essential nutrients with no upper limits; the
calorie-focused solve with no upper limits; the best-effort greedy
heuristic — stopping at the first attempt that succeeds, every attempt an
independent solve over the same foods, fixed pins, minimum pins and weight
cap. -/
theorem C1_balanced_cascade_order (solver : Solver) (t : FoodTable)
    (req upper : Dict) (W : ℚ) (fixed mins : Dict) :
    optimize_diet solver t req upper W fixed mins
      = balancedCascade solver t req upper W fixed mins := rfl

/-- C2: the service's strategy dispatch collapses `best_effort` and
`cost_limited` onto the balanced cascade — for every input both selectors
produce exactly the balanced (`optimize_diet`) result, and at a concrete
input the `best_effort` selector's result differs from what the greedy
heuristic `optimize_best_effort` would return, showing the greedy and
budget-capped policies are never dispatched. -/
theorem C2_dispatch_collapse :
    (∀ (solver : Solver) (t : FoodTable) (req upperD : Dict) (W : ℚ)
      (fixed : Dict) (p : ScoringParams),
      serviceStrategyAmounts solver .best_effort t req upperD W fixed p
        = optimize_diet solver t req upperD W fixed []
      ∧ serviceStrategyAmounts solver .cost_limited t req upperD W fixed p
        = optimize_diet solver t req upperD W fixed [])
    ∧ serviceStrategyAmounts c2solver .best_effort c2T c2req [] 1000 [] c2params
        = some [("A", 200)]
    ∧ optimize_best_effort c2T c2req 1000 [] [] none = [("A", 100)] := by
  refine ⟨fun solver t req upperD W fixed p => ⟨rfl, rfl⟩, ?_, ?_⟩
  · simp only [serviceStrategyAmounts, optimize_diet, optimize_strict, strictLP,
      c2T, c2req, c2solver, reqConstrs, upperConstrs, fixedNutrition,
      variableRows, fixedTotal, cellVal, get_food_row, dget, List.find?,
      List.filterMap, List.filter, List.map, List.sum, List.replicate,
      List.length, extractAmounts, enforceMins, updateAll, setv, List.zip,
      List.zipWith, List.foldl, round1, pyRoundHalfEven, ratFloor,
      List.isEmpty, truthy, String.reduceBEq, String.reduceEq, scaleDict]
    norm_num
  · simp only [optimize_best_effort, variableRows, c2T, c2req, List.filter,
      dget, List.isEmpty, fixedTotal, fixedCost, List.map, List.sum, beMinFold,
      sortByScoreDesc, insertDesc, calc_score, seriesGet, scoreGE,
      beGreedyFold, beAmount, budgetSub, budgetLt1, get_food_row, List.find?,
      String.reduceBEq, String.reduceEq, setv, round1, pyRoundHalfEven,
      ratFloor, Option.map, min_def]
    norm_num

/-- C6: the strict builder silently drops an upper-limit row whose remaining
limit is already violated by the fixed pins, instead of reporting the
attempt infeasible: with B pinned at 300 g contributing 150 µg of vitamin A
against the 100 µg limit, the assembled LP contains only the total-weight
row, the solve succeeds, and the returned amounts carry 200 µg of
vitamin A — double the upper limit. -/
theorem C6_upper_limit_dropped :
    (strictLP c6T c6req c6upper 1000 c6fixed []).constrs = [([1], 700)]
    ∧ optimize_strict c6solver c6T c6req c6upper 1000 c6fixed []
        = some [("A", 100), ("B", 300)]
    ∧ totalNutrient c6T [("A", 100), ("B", 300)] "vitamin_a_ug" = 200
    ∧ dget c6upper "vitamin_a_ug" = some 100 := by
  refine ⟨?_, ?_, ?_, ?_⟩
  · simp only [strictLP, c6T, c6req, c6upper, c6fixed, reqConstrs,
      upperConstrs, fixedNutrition, variableRows, fixedTotal, cellVal,
      get_food_row, dget, List.find?, List.filterMap, List.filter, List.map,
      List.sum, List.replicate, List.length, String.reduceBEq,
      String.reduceEq]
    norm_num
  · simp only [optimize_strict, strictLP, c6T, c6req, c6upper, c6fixed,
      c6solver, reqConstrs, upperConstrs, fixedNutrition, variableRows,
      fixedTotal, cellVal, get_food_row, dget, List.find?, List.filterMap,
      List.filter, List.map, List.sum, List.replicate, List.length,
      extractAmounts, enforceMins, updateAll, setv, List.zip, List.zipWith,
      List.foldl, round1, pyRoundHalfEven, ratFloor, List.isEmpty,
      String.reduceBEq, String.reduceEq]
    norm_num
  · simp only [totalNutrient, get_food_row, dget, c6T, List.find?, List.map,
      List.sum, String.reduceBEq, String.reduceEq]
    norm_num
  · simp [c6upper, dget]

/-- C9 counterexample: the claim says every variable food gets the box
bounds `[minimums.get(food, 0), maxPerFoodWeight]`, but in the strict build
over a one-food table with cap 1500 the bounds are `(0, none)` — there is no
finite upper bound. -/
theorem C9_counterexample :
    (strictLP c9T [("energy_kcal", 50)] [] 1500 [] []).bounds
      = [((0:ℚ), (none : Option ℚ))]
    ∧ (strictLP c9T [("energy_kcal", 50)] [] 1500 [] []).bounds
      ≠ [((0:ℚ), some (1500:ℚ))] := by
  constructor
  · simp only [strictLP, c9T, lpBounds, variableRows, List.filter, dget,
      List.map, dgetD, String.reduceBEq, String.reduceEq]
    norm_num [Option.getD]
  · simp only [strictLP, c9T, lpBounds, variableRows, List.filter, dget,
      List.map, dgetD, String.reduceBEq, String.reduceEq, ne_eq]
    norm_num
    simp

/-- C9 as amended: in every LP build each variable food receives the bounds
`(minimums.get(food, 0), None)` — the lower bound is its minimum pin (0 when
unpinned) and there is no upper bound at all; the weight cap enters only
through the global total-weight row. -/
theorem C9_bounds_no_upper (t : FoodTable) (req upper : Dict) (W : ℚ)
    (fixed mins : Dict) (p : ScoringParams) (maxCost : ℚ) :
    (strictLP t req upper W fixed mins).bounds
      = (variableRows t fixed).map
          (fun r => (dgetD mins r.name 0, (none : Option ℚ)))
    ∧ (calorieFocusedLP t req upper W fixed mins).bounds
      = (variableRows t fixed).map
          (fun r => (dgetD mins r.name 0, (none : Option ℚ)))
    ∧ (withScoreLP t req upper W fixed p mins).bounds
      = (variableRows t fixed).map
          (fun r => (dgetD mins r.name 0, (none : Option ℚ)))
    ∧ (costLimitedLP t req upper W fixed maxCost mins).bounds
      = (variableRows t fixed).map
          (fun r => (dgetD mins r.name 0, (none : Option ℚ))) :=
  ⟨rfl, rfl, rfl, rfl⟩

/-- C3 counterexample: at a one-food table with requirements
`{energy: 1000, protein: 50}` and no pins, the LP `optimize_calorie_focused`
builds differs from the claimed constraint set (energy ≥ 95% of target,
energy ≤ 110% of target, protein ≥ target, upper limits, weight bound): the
code emits the energy floor at the full target and emits no energy ceiling
at all. -/
theorem C3_counterexample :
    calorieFocusedLP c3T c3req [] 2000 [] []
      ≠ calorieClaimLP c3T c3req [] 2000 [] [] := by
  simp only [calorieFocusedLP, calorieClaimLP, c3T, c3req, reqConstrs,
    upperConstrs, fixedNutrition, variableRows, fixedTotal, cellVal,
    get_food_row, dget, List.find?, List.filterMap, List.filter, List.map,
    List.sum, List.replicate, List.length, lpBounds, dgetD, String.reduceBEq,
    String.reduceEq, ne_eq]
  norm_num

/-- C3 as amended: the calorie-focused strategy minimizes cost subject to
exactly an energy floor at the full remaining target (when requested, a
column, and positive), a protein floor at the full remaining target
(likewise), the upper limits with positive remaining, and the total-weight
bound — no energy ceiling and no other nutrient constraints; and when the
solver reports failure the strategy returns `none` with no fallback. -/
theorem C3_amended :
    (∀ (t : FoodTable) (req upper : Dict) (W : ℚ) (fixed mins : Dict),
      calorieFocusedLP t req upper W fixed mins
        = calorieAmendedLP t req upper W fixed mins)
    ∧ ∀ (solver : Solver) (t : FoodTable) (req upper : Dict) (W : ℚ)
        (fixed mins : Dict),
        variableRows t fixed ≠ [] →
        solver (calorieFocusedLP t req upper W fixed mins) = none →
        optimize_calorie_focused solver t req upper W fixed mins = none := by
  constructor
  · intro t req upper W fixed mins
    simp only [calorieFocusedLP, calorieAmendedLP, LPProblem.mk.injEq]
    refine ⟨trivial, ?_, trivial⟩
    have hblock : ∀ n : String,
        (match dget req n with
         | some e =>
             if n ∈ t.cols then
               if 0 < e - fixedNutrition t req fixed n then
                 [((variableRows t fixed).map
                     (fun (r : FoodRow) => -((dget r.cells n).getD 0) / 100),
                   -(e - fixedNutrition t req fixed n))]
               else []
             else []
         | none => ([] : List (List ℚ × ℚ))) =
        (match dget req n with
         | some tgt =>
             if n ∈ t.cols ∧ 0 < tgt - fixedNutrition t req fixed n then
               some ((variableRows t fixed).map
                   (fun (r : FoodRow) => -((dget r.cells n).getD 0) / 100),
                 -(tgt - fixedNutrition t req fixed n))
             else none
         | none => none).toList := by
      intro n
      cases dget req n with
      | none => rfl
      | some e =>
          by_cases hc : n ∈ t.cols
          · by_cases hrem : 0 < e - fixedNutrition t req fixed n
            · simp [hc, hrem]
            · simp [hc, hrem]
          · simp [hc]
    rw [hblock "energy_kcal", hblock "protein_g"]
  · intro solver t req upper W fixed mins hv hs
    rw [optimize_calorie_focused]
    dsimp only
    rw [if_neg (by simpa [List.isEmpty_iff] using hv)]
    split
    · rfl
    · rw [hs]

/-- C3 amended witness: at the counterexample's inputs with an
always-failing solver, the calorie-focused strategy returns `none`. -/
theorem C3_amended_witness :
    optimize_calorie_focused failSolver c3T c3req [] 2000 [] [] = none :=
  C3_amended.2 failSolver c3T c3req [] 2000 [] []
    (by rw [variableRows_no_fixed]; simp [c3T]) rfl

/-- C4: fixed-pin invariant — for every strategy (strict, calorie-focused,
custom-score, cost-limited, best-effort, and the balanced cascade), whenever
a result map is returned, every food in the fixed-pin map appears in it with
exactly its pinned value. -/
theorem C4_fixed_pin_invariant (solver : Solver) (t : FoodTable)
    (req upper : Dict) (W : ℚ) (fixed mins : Dict) (p : ScoringParams)
    (maxCost : ℚ) (budget : Option ℚ) (hfix : (dkeys fixed).Nodup)
    (f : String) (hf : f ∈ dkeys fixed) :
    (∀ a, optimize_strict solver t req upper W fixed mins = some a →
      dget a f = dget fixed f)
    ∧ (∀ a, optimize_calorie_focused solver t req upper W fixed mins = some a →
      dget a f = dget fixed f)
    ∧ (∀ a, optimize_with_score solver t req upper W fixed p mins = some a →
      dget a f = dget fixed f)
    ∧ dget (optimize_cost_limited solver t req upper W fixed maxCost mins) f
        = dget fixed f
    ∧ dget (optimize_best_effort t req W fixed mins budget) f = dget fixed f
    ∧ (∀ a, optimize_diet solver t req upper W fixed mins = some a →
      dget a f = dget fixed f) :=
  ⟨strict_fixed_pin solver t req upper W fixed mins hfix f hf,
   calorie_fixed_pin solver t req upper W fixed mins hfix f hf,
   score_fixed_pin solver t req upper W fixed p mins hfix f hf,
   costlim_fixed_pin solver t req upper W fixed maxCost mins hfix f hf,
   be_fixed_pin t req W fixed mins budget f hf,
   diet_fixed_pin solver t req upper W fixed mins hfix f hf⟩

/-- C4 witness: food B pinned at 5 g comes back with exactly 5 g from the
best-effort heuristic. -/
theorem C4_fixed_pin_invariant_witness :
    dget (optimize_best_effort wT [] 100 [("B", 5)] [] none) "B"
      = dget [("B", 5)] "B" :=
  (C4_fixed_pin_invariant wSolver wT [] [] 100 [("B", 5)] [] c2params 500 none
    (by simp [dkeys]) "B" (by simp [dkeys])).2.2.2.2.1

/-- C5 counterexample: with a non-empty table, a positive weight cap of 5 g
and a positive budget of 1000, the best-effort heuristic returns the empty
map — every greedy increment falls below its 10 g floor. -/
theorem C5_counterexample :
    optimize_best_effort c5T [("energy_kcal", 100)] 5 [] [] (some 1000) = []
    ∧ c5T.rows ≠ [] ∧ (0:ℚ) < 5 ∧ (0:ℚ) < 1000 := by
  refine ⟨?_, by simp [c5T], by norm_num, by norm_num⟩
  simp only [optimize_best_effort, variableRows, c5T, List.filter, dget,
    List.isEmpty, fixedTotal, fixedCost, List.map, List.sum, beMinFold,
    sortByScoreDesc, insertDesc, calc_score, seriesGet, scoreGE, beGreedyFold,
    beAmount, budgetSub, budgetLt1, get_food_row, List.find?, String.reduceBEq,
    String.reduceEq, setv, round1, pyRoundHalfEven, ratFloor, Option.map,
    min_def]
  norm_num

/-- C5 as amended: the best-effort heuristic returns a non-empty map
whenever the table is non-empty, there are no fixed or minimum pins, the
weight cap is at least 10 g, and some food is either free (price ≤ 0) or
affordable at 10 g within the budget (price_per_100g ≤ 10 × budget). -/
theorem C5_best_effort_nonempty (t : FoodTable) (req : Dict) (W B : ℚ)
    (hrows : t.rows ≠ []) (hW : 10 ≤ W)
    (hfeas : ∃ r ∈ t.rows, r.price_per_100g ≤ 0 ∨ r.price_per_100g ≤ 10 * B) :
    optimize_best_effort t req W [] [] (some B) ≠ [] := by
  rw [optimize_best_effort]
  dsimp only
  rw [variableRows_no_fixed t]
  rw [if_neg (by simpa [List.isEmpty_iff] using hrows)]
  simp only [beMinFold, fixedTotal, fixedCost, List.map_nil, List.sum_nil,
    Option.map_some']
  apply beGreedyFold_adds _ _ rfl
  rcases hfeas with ⟨r, hr, hcase⟩
  refine ⟨r, (mem_sortByScoreDesc t.cols r t.rows).mpr hr, ?_⟩
  rw [not_lt, beAmount]
  dsimp only
  by_cases hp : 0 < r.price_per_100g / 100
  · rw [if_pos hp]
    simp only [Option.map_some']
    have hBp : r.price_per_100g ≤ 10 * B := by
      rcases hcase with hc | hc
      · linarith
      · exact hc
    refine le_min (le_min (by norm_num) (by linarith)) ?_
    rw [le_div_iff₀ hp]
    linarith
  · rw [if_neg hp]
    exact le_min (le_min (by norm_num) (by linarith)) (by linarith)

/-- C5 amended witness: on the counterexample's table but with a 100 g cap
and budget 1000, the best-effort result is non-empty. -/
theorem C5_best_effort_nonempty_witness :
    optimize_best_effort c5T [("energy_kcal", 100)] 100 [] [] (some 1000)
      ≠ [] :=
  C5_best_effort_nonempty c5T [("energy_kcal", 100)] 100 1000
    (by simp [c5T]) (by norm_num)
    ⟨{ name := "A", price_per_100g := 100, cells := [("energy_kcal", 100)] },
      by simp [c5T], Or.inr (by norm_num)⟩

/-- C7 counterexample: the code weights energy by 0.5, not 1 — on a food
with 100 kcal, zero protein/calcium/iron and price 100, the code's score is
1/2 while the claimed formula gives 1. -/
theorem C7_counterexample :
    calc_score c7cols c7row = some (1/2)
    ∧ claimScore7 c7cols c7row = 1
    ∧ calc_score c7cols c7row ≠ some (claimScore7 c7cols c7row) := by
  have h1 : calc_score c7cols c7row = some (1/2) := by
    simp only [calc_score, c7cols, c7row, seriesGet, dget, String.reduceBEq,
      String.reduceEq]
    norm_num
  have h2 : claimScore7 c7cols c7row = 1 := by
    simp only [claimScore7, c7cols, c7row, seriesGet, dget, String.reduceBEq,
      String.reduceEq]
    norm_num
  refine ⟨h1, h2, ?_⟩
  rw [h1, h2]
  norm_num

/-- C7 as amended: the best-effort heuristic scores each food as
`(energy*0.5 + protein*10 + calcium*0.1 + iron*5) / price` — the energy term
carries weight 0.5, not 1 — with a food of non-positive price scoring
exactly 0, and considers foods in descending order of this score (the sorted
list is ordered under the descending score comparison and is a
rearrangement of the variable foods). -/
theorem C7_amended_score :
    (∀ (cols : List String) (r : FoodRow), r.price_per_100g ≤ 0 →
      calc_score cols r = some 0)
    ∧ (∀ (cols : List String) (r : FoodRow) (e p c i : ℚ),
        0 < r.price_per_100g →
        seriesGet cols r "energy_kcal" = some e →
        seriesGet cols r "protein_g" = some p →
        seriesGet cols r "calcium_mg" = some c →
        seriesGet cols r "iron_mg" = some i →
        calc_score cols r
          = some ((e * (1/2) + p * 10 + c * (1/10) + i * 5)
              / r.price_per_100g))
    ∧ (∀ (cols : List String) (l : List FoodRow),
        (sortByScoreDesc cols l).Pairwise
          (fun a b => scoreGE (calc_score cols a) (calc_score cols b) = true))
    ∧ (∀ (cols : List String) (x : FoodRow) (l : List FoodRow),
        x ∈ sortByScoreDesc cols l ↔ x ∈ l) := by
  refine ⟨?_, ?_, sortByScoreDesc_sorted,
    fun cols x l => mem_sortByScoreDesc cols x l⟩
  · intro cols r hp
    simp [calc_score, hp]
  · intro cols r e p c i hp he hpr hc hi
    have hP : r.price_per_100g ≠ 0 := ne_of_gt hp
    simp only [calc_score, not_le.mpr hp, if_false, he, hpr, hc, hi]
    congr 1
    field_simp
    ring

/-- C7 amended witness: the fully populated row scores
`(100*0.5 + 10*10 + 50*0.1 + 2*5) / 100`. -/
theorem C7_amended_score_witness :
    calc_score c7cols c7wRow
      = some ((100 * (1/2) + 10 * 10 + 50 * (1/10) + 2 * 5) / (100:ℚ)) := by
  have h := C7_amended_score.2.1 c7cols c7wRow 100 10 50 2
    (by norm_num [c7wRow])
    (by simp [seriesGet, c7cols, c7wRow, dget])
    (by simp [seriesGet, c7cols, c7wRow, dget])
    (by simp [seriesGet, c7cols, c7wRow, dget])
    (by simp [seriesGet, c7cols, c7wRow, dget])
  simpa [c7wRow] using h

/-- C8 counterexample: a minimum pin of 20 g on food A with a 10 g weight
cap — the best-effort heuristic clamps the pin to the remaining weight and
returns 10 g, below the pinned minimum. -/
theorem C8_counterexample :
    optimize_best_effort c8T [] 10 [] [("A", 20)] none = [("A", 10)]
    ∧ ¬ (20:ℚ) ≤ 10 := by
  refine ⟨?_, by norm_num⟩
  simp only [optimize_best_effort, variableRows, c8T, List.filter, dget,
    List.isEmpty, fixedTotal, fixedCost, List.map, List.sum, beMinFold,
    sortByScoreDesc, insertDesc, calc_score, seriesGet, scoreGE, beGreedyFold,
    beAmount, budgetSub, budgetLt1, get_food_row, List.find?, String.reduceBEq,
    String.reduceEq, setv, round1, pyRoundHalfEven, ratFloor, Option.map,
    min_def]
  norm_num

/-- C8 as amended: minimum-pin invariant — for every strategy, every minimum
pin `(f, m)` with `m ≥ 1` that names a food present in the table, is not
fixed-pinned, survives one-decimal rounding (`round1 m = m`), whose pin map
has no duplicate keys and all-nonnegative values summing to at most the
weight remaining after the fixed pins, ends with `amounts[f] ≥ m` whenever a
result map is returned. -/
theorem C8_min_pin_invariant (solver : Solver) (t : FoodTable)
    (req upper : Dict) (W : ℚ) (fixed mins : Dict) (p : ScoringParams)
    (maxCost : ℚ) (budget : Option ℚ) (f : String) (m : ℚ)
    (hn : (dkeys mins).Nodup) (hm : (f, m) ∈ mins) (h1 : 1 ≤ m)
    (hr : round1 m = m) (hft : f ∈ t.rows.map FoodRow.name)
    (hnf : f ∉ dkeys fixed) (hpos : ∀ kv ∈ mins, 0 ≤ kv.2)
    (hsum : (mins.map Prod.snd).sum ≤ W - fixedTotal fixed) :
    (∀ a, optimize_strict solver t req upper W fixed mins = some a →
      ∃ v, dget a f = some v ∧ m ≤ v)
    ∧ (∀ a, optimize_calorie_focused solver t req upper W fixed mins = some a →
      ∃ v, dget a f = some v ∧ m ≤ v)
    ∧ (∀ a, optimize_with_score solver t req upper W fixed p mins = some a →
      ∃ v, dget a f = some v ∧ m ≤ v)
    ∧ (∃ v, dget (optimize_cost_limited solver t req upper W fixed maxCost mins) f
        = some v ∧ m ≤ v)
    ∧ (∃ v, dget (optimize_best_effort t req W fixed mins budget) f
        = some v ∧ m ≤ v)
    ∧ (∀ a, optimize_diet solver t req upper W fixed mins = some a →
      ∃ v, dget a f = some v ∧ m ≤ v) :=
  ⟨strict_min_pin solver t req upper W fixed mins f m hn hm h1 hr hft hnf,
   calorie_min_pin solver t req upper W fixed mins f m hn hm h1 hr hft hnf,
   score_min_pin solver t req upper W fixed p mins f m hn hm h1 hr hft hnf,
   costlim_min_pin solver t req upper W fixed maxCost mins f m hn hm h1 hr
     hft hnf hpos hsum,
   be_min_pin t req W fixed mins budget f m hn hm h1 hr hft hnf hpos hsum,
   diet_min_pin solver t req upper W fixed mins f m hn hm h1 hr hft hnf
     hpos hsum⟩

/-- C8 amended witness: food A min-pinned at 10 g under a 100 g cap (with B
fixed at 5 g) comes back from the best-effort heuristic with at least
10 g. -/
theorem C8_min_pin_invariant_witness :
    ∃ v, dget (optimize_best_effort wT [] 100 [("B", 5)] [("A", 10)] none) "A"
      = some v ∧ (10:ℚ) ≤ v :=
  (C8_min_pin_invariant wSolver wT [] [] 100 [("B", 5)] [("A", 10)] c2params
    500 none "A" 10 (by simp [dkeys]) (by simp) (by norm_num)
    (by norm_num [round1, pyRoundHalfEven, ratFloor])
    (by simp [wT]) (by simp [dkeys])
    (by intro kv hkv; simp at hkv; simp [hkv])
    (by simp [fixedTotal]; norm_num)).2.2.2.2.1

/-- C10: for every strategy, when every food of the table is named in the
fixed-pin map (the variable set is empty), the strategy returns the
fixed-pin map unchanged for any solver, requirements and upper limits; with
an empty fixed-pin map it returns `none` or the empty map. -/
theorem C10_all_fixed (solver : Solver) (t : FoodTable) (req upper : Dict)
    (W : ℚ) (fixed mins : Dict) (p : ScoringParams) (maxCost : ℚ)
    (budget : Option ℚ) (h : ∀ r ∈ t.rows, r.name ∈ dkeys fixed) :
    optimize_strict solver t req upper W fixed mins
      = (if fixed.isEmpty then none else some fixed)
    ∧ optimize_calorie_focused solver t req upper W fixed mins
      = (if fixed.isEmpty then none else some fixed)
    ∧ optimize_with_score solver t req upper W fixed p mins
      = (if fixed.isEmpty then none else some fixed)
    ∧ optimize_cost_limited solver t req upper W fixed maxCost mins
      = (if fixed.isEmpty then [] else fixed)
    ∧ optimize_best_effort t req W fixed mins budget
      = (if fixed.isEmpty then [] else fixed)
    ∧ optimize_diet solver t req upper W fixed mins
      = (if fixed.isEmpty then some [] else some fixed) :=
  ⟨strict_all_fixed solver t req upper W fixed mins h,
   calorie_all_fixed solver t req upper W fixed mins h,
   score_all_fixed solver t req upper W fixed p mins h,
   costlim_all_fixed solver t req upper W fixed maxCost mins h,
   be_all_fixed t req W fixed mins budget h,
   diet_all_fixed solver t req upper W fixed mins h⟩

/-- C10 witness: with both foods of the table fixed, the strict strategy
returns exactly the fixed-pin map. -/
theorem C10_all_fixed_witness :
    optimize_strict wSolver wT [] [] 100 [("A", 7), ("B", 5)] []
      = (if ([("A", 7), ("B", 5)] : Dict).isEmpty then none
         else some [("A", 7), ("B", 5)]) :=
  (C10_all_fixed wSolver wT [] [] 100 [("A", 7), ("B", 5)] [] c2params 500
    none (by intro r hr; simp [wT] at hr; rcases hr with hr | hr <;>
      simp [hr, dkeys])).1
